import Mathlib

/-!
# Verification of the fs-object-storage path/error translation layer

A shallow embedding of the repository fs-object-storage: the PathConverter
(filesystem path to bucket/key conversion, src/lib/PathConverter.js), the
ErrorHandler (backend error to filesystem error conversion,
src/lib/ErrorHandler.js) and the ObjectStorage facade
(src/lib/ObjectStorage.js).  JavaScript strings are modelled as Lean
strings, and the string algorithms are carried out on the underlying
character lists.  The Node path.posix.normalize routine, which the source
calls, is embedded segment by segment following the Node implementation
(resolve dot and dot-dot segments lexically, with segments above the root
kept only for relative inputs).
-/

namespace PathConverter

/-- Split a character list at every slash, mirroring the JavaScript
String.split with separator slash: n slashes give n+1 (possibly empty)
groups. -/
def splitOnSlash : List Char → List (List Char)
  | [] => [[]]
  | c :: rest =>
    if c = '/' then [] :: splitOnSlash rest
    else
      match splitOnSlash rest with
      | [] => [[c]]
      | g :: gs => (c :: g) :: gs

/-- Join groups with single slashes, mirroring Array.prototype.join with a
slash separator. -/
def joinSlash : List (List Char) → List Char
  | [] => []
  | [g] => g
  | g :: h :: t => g ++ '/' :: joinSlash (h :: t)

/-- One step of the Node normalizeString segment resolver.  The
accumulator holds already-emitted segments in reverse order.  Empty and
single-dot segments are dropped; a dot-dot segment pops the previous
segment, except that above the root it is kept only when allowAboveRoot
is set (relative paths). -/
def goNorm (ab : Bool) : List (List Char) → List (List Char) → List (List Char)
  | [], acc => acc
  | s :: rest, acc =>
    if s = [] ∨ s = ['.'] then goNorm ab rest acc
    else if s = ['.', '.'] then
      match acc with
      | [] => goNorm ab rest (if ab then [['.', '.']] else [])
      | t :: acc2 =>
        if t = ['.', '.'] then goNorm ab rest (if ab then s :: acc else acc)
        else goNorm ab rest acc2
    else goNorm ab rest (s :: acc)

/-- Node normalizeString: resolve the segments of a split path. -/
def normalizeString (ab : Bool) (segs : List (List Char)) : List (List Char) :=
  (goNorm ab segs []).reverse

/-- Node path.posix.normalize on character lists.  The empty path becomes
a dot; the resolved segments are rejoined, a trailing slash is restored,
and a leading slash is restored for absolute inputs. -/
def posixNormalizeL (l : List Char) : List Char :=
  if l = [] then ['.']
  else
    let isAbs := l.head? = some '/'
    let trailing := l.getLast? = some '/'
    let core := joinSlash (normalizeString (if isAbs then false else true) (splitOnSlash l))
    if core = [] then
      if isAbs then ['/'] else if trailing then ['.', '/'] else ['.']
    else
      let core2 := if trailing then core ++ ['/'] else core
      if isAbs then '/' :: core2 else core2

/-- Helper for collapsing runs of slashes; the flag records whether the
previous kept character was a slash. -/
def collapseAux : Bool → List Char → List Char
  | _, [] => []
  | prevSlash, c :: rest =>
    if c = '/' then
      if prevSlash then collapseAux true rest
      else '/' :: collapseAux true rest
    else c :: collapseAux false rest

/-- The JavaScript replace of every run of slashes by a single slash. -/
def collapseSlashesL (l : List Char) : List Char := collapseAux false l

/-- The JavaScript replace removing every leading slash. -/
def stripLeadingSlashesL (l : List Char) : List Char := l.dropWhile (fun c => c = '/')

/-- PathConverter.normalizePath (static), on character lists: empty input
gives the root, otherwise posix-normalize, collapse duplicate slashes,
force a leading slash and strip a trailing slash except at the root. -/
def normalizePathL (l : List Char) : List Char :=
  if l = [] then ['/']
  else
    let n1 := collapseSlashesL (posixNormalizeL l)
    let n2 := if n1.head? = some '/' then n1 else '/' :: n1
    if 1 < n2.length ∧ n2.getLast? = some '/' then n2.dropLast else n2

/-- PathConverter.normalizePath from src/lib/PathConverter.js. -/
def normalizePath (filePath : String) : String := ⟨normalizePathL filePath.data⟩

/-- The bucket/key record returned by the converter. -/
structure MinIOPair where
  bucket : String
  key : String
deriving DecidableEq, Repr

/-- The body of PathConverter.splitPath applied to an already-normalized
path: the root splits into empty bucket and key; otherwise the leading
slash is removed, the first slash-group is the bucket and the remaining
groups rejoined are the key. -/
def splitCoreL (n : List Char) : List Char × List Char :=
  if n = ['/'] then ([], [])
  else
    match splitOnSlash (n.drop 1) with
    | [] => ([], [])
    | b :: rest => (b, joinSlash rest)

/-- PathConverter.splitPath on character lists: normalize, then split. -/
def splitPathL (l : List Char) : List Char × List Char :=
  splitCoreL (normalizePathL l)

/-- PathConverter.splitPath from src/lib/PathConverter.js. -/
def splitPath (filePath : String) : MinIOPair :=
  let r := splitPathL filePath.data
  ⟨⟨r.1⟩, ⟨r.2⟩⟩

/-- PathConverter.joinPath on character lists: rebuild a slash-separated
path from bucket and key (leading slashes of the key are dropped first),
then normalize. -/
def joinPathL (b k : List Char) : List Char :=
  let p :=
    if b ≠ [] ∧ k ≠ [] then '/' :: b ++ '/' :: stripLeadingSlashesL k
    else if b ≠ [] then '/' :: b
    else if k ≠ [] then '/' :: stripLeadingSlashesL k
    else ['/']
  normalizePathL p

/-- PathConverter.joinPath from src/lib/PathConverter.js. -/
def joinPath (bucket key : String) : String := ⟨joinPathL bucket.data key.data⟩

end PathConverter

namespace PathConverter

/-- Property of every segment emitted by the resolver: nonempty, not a
single dot, slash-free, and (for absolute paths) not a double dot. -/
def SegOk (ab : Bool) (s : List Char) : Prop :=
  s ≠ [] ∧ s ≠ ['.'] ∧ '/' ∉ s ∧ (ab = false → s ≠ ['.', '.'])

/-- No two adjacent slashes. -/
def NoDupSlash (l : List Char) : Prop :=
  List.Chain' (fun a b => ¬(a = '/' ∧ b = '/')) l

end PathConverter

namespace PathConverter

/-- Configuration of a PathConverter instance: the bound bucket and the
key prefix (this.bucket and this.prefix in the source).  The facade always
constructs the converter with the default slash separator, which is
therefore fixed in the embedding. -/
structure Config where
  bucket : String
  keyPfx : String
deriving DecidableEq, Repr

/-- The tail of pathToMinIOPair: prepend the configured prefix (when set) with
a separator, then collapse duplicate slashes. -/
def pathToMinIOKeyL (cfg : Config) (np : List Char) : List Char :=
  collapseSlashesL (if cfg.keyPfx ≠ "" then cfg.keyPfx.data ++ '/' :: np else np)

/-- The head of pathToMinIOPair: posix-normalize and strip leading slashes. -/
def strippedPathL (filePath : String) : List Char :=
  stripLeadingSlashesL (posixNormalizeL filePath.data)

/-- The bucket-stripping step of pathToMinIOPair: a leading segment equal to
the configured bucket name is removed (character counts model the
JavaScript string indices). -/
def bucketStrippedL (cfg : Config) (filePath : String) : List Char :=
  let np := strippedPathL filePath
  if (cfg.bucket.data ++ ['/']).isPrefixOf np then np.drop (cfg.bucket.data.length + 1)
  else if np = cfg.bucket.data then []
  else np

/-- PathConverter.prototype.pathToMinIOPair from src/lib/PathConverter.js. -/
def pathToMinIOPair (cfg : Config) (filePath : String) : MinIOPair :=
  ⟨cfg.bucket, ⟨pathToMinIOKeyL cfg (bucketStrippedL cfg filePath)⟩⟩

/-- The invalid-character class of validatePath: angle brackets, colon,
double quote, pipe, question mark, asterisk and control characters. -/
def isInvalidChar (c : Char) : Bool :=
  c = '<' || c = '>' || c = ':' || c = '"' || c = '|' || c = '?' || c = '*' ||
    c.toNat ≤ 31

/-- PathConverter.prototype.validatePath from src/lib/PathConverter.js:
reject the empty path, paths with invalid characters, and paths whose
converted key exceeds 1024 UTF-8 bytes. -/
def validatePath (cfg : Config) (filePath : String) : Except String Unit :=
  if filePath = "" then Except.error "Path must be a non-empty string"
  else if filePath.data.any isInvalidChar then
    Except.error "Path contains invalid characters"
  else if 1024 < (pathToMinIOPair cfg filePath).key.utf8ByteSize then
    Except.error "Path too long (exceeds 1024 bytes when converted to key)"
  else Except.ok ()

/-- PathConverter.prototype.toDirectoryPath: posix-normalize and ensure a
trailing separator. -/
def toDirectoryPathL (l : List Char) : List Char :=
  let n := posixNormalizeL l
  if n.getLast? = some '/' then n else n ++ ['/']

/-- PathConverter.prototype.createDirectoryMarker: convert the directory
form of the path. -/
def createDirectoryMarker (cfg : Config) (dirPath : String) : MinIOPair :=
  pathToMinIOPair cfg ⟨toDirectoryPathL dirPath.data⟩

/-- PathConverter.prototype.getListPrefix: the converted key with a
trailing separator appended when missing. -/
def getListPrefix (cfg : Config) (dirPath : String) : String × String :=
  let r := pathToMinIOPair cfg dirPath
  let pre : String :=
    if r.key ≠ "" ∧ ¬(r.key.data.getLast? = some '/') then ⟨r.key.data ++ ['/']⟩
    else r.key
  (r.bucket, pre)

end PathConverter

/-- The fields of the original backend error retained on a converted
error (error.originalError in the source). -/
structure ErrTrace where
  code : Option String
  errno : Option Int
  message : String
deriving DecidableEq, Repr

/-- A JavaScript error value as the translation layer observes it:
optional code, errno, syscall and path properties, a message (empty by
default, as on a plain Error), and the retained original error of a
converted error. -/
structure JsError where
  code : Option String := none
  errno : Option Int := none
  syscall : Option String := none
  path : Option String := none
  message : String := ""
  originalError : Option ErrTrace := none
deriving DecidableEq, Repr

namespace ErrorHandler

/-- JavaScript truthiness of an optional string property: present and
nonempty. -/
def strTruthy : Option String → Bool
  | none => false
  | some s => s ≠ ""

/-- JavaScript truthiness of an optional number property: present and
nonzero. -/
def intTruthy : Option Int → Bool
  | none => false
  | some n => n ≠ 0

/-- Substring occurrence on character lists: the pattern occurs as a
prefix here or anywhere in the tail. -/
def includesL (pat : List Char) : List Char → Bool
  | [] => pat.isPrefixOf []
  | c :: rest => pat.isPrefixOf (c :: rest) || includesL pat rest

/-- String.prototype.includes: the pattern occurs somewhere in the
string. -/
def includesStr (s pat : String) : Bool := includesL pat.data s.data

/-- ErrorHandler.errorMapping from src/lib/ErrorHandler.js, as a lookup
from the backend code to (code, errno, description). -/
def errorMapping (c : String) : Option (String × Int × String) :=
  if c = "NoSuchKey" then some ("ENOENT", -2, "no such file or directory")
  else if c = "NoSuchBucket" then some ("ENOENT", -2, "no such file or directory")
  else if c = "BucketNotFound" then some ("ENOENT", -2, "no such file or directory")
  else if c = "AccessDenied" then some ("EACCES", -13, "permission denied")
  else if c = "InvalidBucketName" then some ("EINVAL", -22, "invalid argument")
  else if c = "BucketAlreadyExists" then some ("EEXIST", -17, "file already exists")
  else if c = "KeyTooLong" then some ("ENAMETOOLONG", -36, "file name too long")
  else if c = "ENOTFOUND" then some ("ENOTFOUND", -3008, "getaddrinfo ENOTFOUND")
  else if c = "ECONNREFUSED" then some ("ECONNREFUSED", -61, "connect ECONNREFUSED")
  else if c = "ETIMEDOUT" then some ("ETIMEDOUT", -60, "operation timed out")
  else if c = "Unknown" then some ("EIO", -5, "input/output error")
  else none

/-- The Unknown fallback entry of the mapping. -/
def unknownInfo : String × Int × String := ("EIO", -5, "input/output error")

/-- The message-pattern chain of convertError, tried when the code lookup
fails and the message is truthy. -/
def msgInfo (m : String) : String × Int × String :=
  if includesStr m "key does not exist" || includesStr m "NoSuchKey" ||
      includesStr m "Not Found" then
    ("ENOENT", -2, "no such file or directory")
  else if includesStr m "bucket does not exist" || includesStr m "NoSuchBucket" then
    ("ENOENT", -2, "no such file or directory")
  else if includesStr m "access denied" || includesStr m "AccessDenied" then
    ("EACCES", -13, "permission denied")
  else if includesStr m "ENOTFOUND" then ("ENOTFOUND", -3008, "getaddrinfo ENOTFOUND")
  else if includesStr m "ECONNREFUSED" then
    ("ECONNREFUSED", -61, "connect ECONNREFUSED")
  else if includesStr m "timeout" || includesStr m "ETIMEDOUT" then
    ("ETIMEDOUT", -60, "operation timed out")
  else unknownInfo

/-- The code-table lookup of convertError: performed only when the code
property is truthy. -/
def tableInfo (e : JsError) : Option (String × Int × String) :=
  match e.code with
  | some c => if c ≠ "" then errorMapping c else none
  | none => none

/-- Classification used by convertError: explicit code first, then
message patterns, then the Unknown fallback. -/
def convertInfo (e : JsError) : String × Int × String :=
  match tableInfo e with
  | some i => i
  | none => if e.message ≠ "" then msgInfo e.message else unknownInfo

/-- The single-quote character used by fs-style messages. -/
def quoteS : String := ⟨[Char.ofNat 39]⟩

/-- ErrorHandler.convertError from src/lib/ErrorHandler.js.  An error
already carrying truthy code and errno properties passes through
unchanged; otherwise a new fs-style error is built from the classified
info, the supplied path and operation, and the original error is
retained. -/
def convertError (minioError : JsError) (path : Option String)
    (operation : Option String) : JsError :=
  if strTruthy minioError.code && intTruthy minioError.errno then minioError
  else
    let info := convertInfo minioError
    let sysc :=
      match operation with
      | some s => if s ≠ "" then s else "open"
      | none => "open"
    let msg :=
      match path with
      | some ps =>
        if ps ≠ "" then
          info.1 ++ ": " ++ info.2.2 ++ ", " ++ sysc ++ " " ++ quoteS ++ ps ++ quoteS
        else info.1 ++ ": " ++ info.2.2
      | none => info.1 ++ ": " ++ info.2.2
    { code := some info.1
      errno := some info.2.1
      syscall := some sysc
      path := path
      message := msg
      originalError := some ⟨minioError.code, minioError.errno, minioError.message⟩ }

/-- ErrorHandler.createError from src/lib/ErrorHandler.js: direct
construction for locally detected conditions.  The caller-supplied code
string is preserved even when unknown; the errno and description come
from the table, the standard-code switch, or the Unknown fallback. -/
def createError (code : String) (path : Option String) (operation : String) : JsError :=
  let info :=
    match errorMapping code with
    | some i => i
    | none =>
      if code = "ENOENT" then ("ENOENT", -2, "no such file or directory")
      else if code = "EACCES" then ("EACCES", -13, "permission denied")
      else if code = "EEXIST" then ("EEXIST", -17, "file already exists")
      else if code = "EINVAL" then ("EINVAL", -22, "invalid argument")
      else if code = "ENAMETOOLONG" then ("ENAMETOOLONG", -36, "file name too long")
      else unknownInfo
  let msg :=
    match path with
    | some ps =>
      if ps ≠ "" then
        code ++ ": " ++ info.2.2 ++ ", " ++ operation ++ " " ++ quoteS ++ ps ++ quoteS
      else code ++ ": " ++ info.2.2
    | none => code ++ ": " ++ info.2.2
  { code := some code
    errno := some info.2.1
    syscall := some operation
    path := path
    message := msg
    originalError := none }

/-- ErrorHandler.isNotFoundError: tests the code field only. -/
def isNotFoundError (e : JsError) : Bool := decide (e.code = some "ENOENT")

/-- ErrorHandler.isAccessDeniedError: tests the code field only. -/
def isAccessDeniedError (e : JsError) : Bool := decide (e.code = some "EACCES")

/-- ErrorHandler.isExistsError: tests the code field only. -/
def isExistsError (e : JsError) : Bool := decide (e.code = some "EEXIST")

/-- The message substrings probed by the pattern chain of convertError. -/
def msgPatterns : List String :=
  ["key does not exist", "NoSuchKey", "Not Found", "bucket does not exist",
   "NoSuchBucket", "access denied", "AccessDenied", "ENOTFOUND",
   "ECONNREFUSED", "timeout", "ETIMEDOUT"]

end ErrorHandler

/-- Backend error with a NoSuchKey code, as in the repository tests. -/
def eNoKey : JsError :=
  { code := some "NoSuchKey", message := "NoSuchKey: The specified key does not exist." }

/-- Backend error with an AccessDenied code. -/
def eDenied : JsError :=
  { code := some "AccessDenied", message := "AccessDenied: Access Denied." }

/-- Backend error matching neither the table nor any message pattern. -/
def eMystery : JsError := { message := "Something odd happened" }

/-- Already-converted error carrying code and errno. -/
def eAlready : JsError := { code := some "ENOENT", errno := some (-2) }

/-- Object metadata returned by the backend statObject call. -/
structure ObjInfo where
  size : Nat
  lastModified : Nat
  etag : String
deriving DecidableEq, Repr

/-- An entry of a backend listing stream: regular objects carry a name,
common-prefix entries carry a prefix property (field pfx here). -/
structure ListedObj where
  name : Option String := none
  pfx : Option String := none
deriving DecidableEq, Repr

/-- The fs.Stats-like record built by ObjectStorage.stat; the predicate
methods are constant and modelled as fields. -/
structure Stats where
  isFile : Bool
  isDirectory : Bool
  isBlockDevice : Bool
  isCharacterDevice : Bool
  isSymbolicLink : Bool
  isFIFO : Bool
  isSocket : Bool
  size : Nat
  mode : Nat
  uid : Nat
  gid : Nat
  atime : Nat
  mtime : Nat
  ctime : Nat
  birthtime : Nat
  dev : Nat
  ino : Nat
  nlink : Nat
  rdev : Nat
  blocks : Nat
  blksize : Nat
  etag : String
deriving DecidableEq, Repr

/-- The backend collaborator (the MinIO client) as the facade uses it for
the verified operations: the outcome of lazy initialization
(bucketExists/makeBucket) and the per-call outcomes of statObject,
removeObject and listObjectsV2. -/
structure Backend where
  initResult : Except JsError Unit
  statObject : String → String → Except JsError ObjInfo
  removeObject : String → String → Except JsError Unit
  listObjectsV2 : String → String → Except JsError (List ListedObj)

namespace ObjectStorage

/-- ObjectStorage.prototype.initialize: a backend failure is converted
with a null path and the initialize operation name. -/
def initClient (b : Backend) : Except JsError Unit :=
  match b.initResult with
  | Except.ok _ => Except.ok ()
  | Except.error e => Except.error (ErrorHandler.convertError e none (some "initialize"))

/-- The plain JavaScript Error thrown by validatePath: a bare message
with no code or errno. -/
def validationError (msg : String) : JsError := { message := msg }

/-- The fs.Stats-like record built from backend object metadata: always a
regular file, never a directory, device, link, FIFO or socket. -/
def mkStats (oi : ObjInfo) : Stats :=
  { isFile := true
    isDirectory := false
    isBlockDevice := false
    isCharacterDevice := false
    isSymbolicLink := false
    isFIFO := false
    isSocket := false
    size := oi.size
    mode := 0o644
    uid := 0
    gid := 0
    atime := oi.lastModified
    mtime := oi.lastModified
    ctime := oi.lastModified
    birthtime := oi.lastModified
    dev := 0
    ino := 0
    nlink := 1
    rdev := 0
    blocks := (oi.size + 511) / 512
    blksize := 4096
    etag := oi.etag }

/-- The try block of ObjectStorage.stat: validate, convert the path, call
statObject and project the metadata. -/
def statTry (b : Backend) (cfg : PathConverter.Config) (filePath : String) :
    Except JsError Stats :=
  match PathConverter.validatePath cfg filePath with
  | Except.error msg => Except.error (validationError msg)
  | Except.ok _ =>
    let r := PathConverter.pathToMinIOPair cfg filePath
    match b.statObject r.bucket r.key with
    | Except.ok oi => Except.ok (mkStats oi)
    | Except.error e => Except.error e

/-- ObjectStorage.prototype.stat: initialize, run the try block, convert
any failure with the path and the stat operation name. -/
def stat (b : Backend) (cfg : PathConverter.Config) (filePath : String) :
    Except JsError Stats :=
  match initClient b with
  | Except.error e => Except.error e
  | Except.ok _ =>
    match statTry b cfg filePath with
    | Except.ok st => Except.ok st
    | Except.error e =>
      Except.error (ErrorHandler.convertError e (some filePath) (some "stat"))

/-- ObjectStorage.prototype.exists: true on a successful stat; a
not-found failure becomes false; any other failure propagates. -/
def «exists» (b : Backend) (cfg : PathConverter.Config) (filePath : String) :
    Except JsError Bool :=
  match stat b cfg filePath with
  | Except.ok _ => Except.ok true
  | Except.error e =>
    if ErrorHandler.isNotFoundError e then Except.ok false else Except.error e

/-- The name-or-prefix extraction of a listing entry, with the null check
dropping entries that carry neither. -/
def pickListedName (o : ListedObj) : Option String :=
  let n := if ErrorHandler.strTruthy o.name then o.name else o.pfx
  match n with
  | some s => if s ≠ "" then some s else none
  | none => none

/-- The per-entry mapping of readdir: choose name or prefix, strip the
listing prefix, strip a trailing slash. -/
def processListed (pre : String) (o : ListedObj) : Option String :=
  match pickListedName o with
  | none => none
  | some name0 =>
    let name1 : String :=
      if pre ≠ "" ∧ pre.data.isPrefixOf name0.data then ⟨name0.data.drop pre.data.length⟩
      else name0
    let name2 : String :=
      if name1.data.getLast? = some '/' then ⟨name1.data.dropLast⟩ else name1
    some name2

/-- The default JavaScript string sort (ascending lexicographic). -/
def jsSortStrings (l : List String) : List String := l.mergeSort

/-- The filename pipeline of readdir: map the entries, drop null and
empty names, keep only direct children, sort. -/
def readdirNames (pre : String) (objs : List ListedObj) : List String :=
  jsSortStrings (((objs.filterMap (processListed pre)).filter
    (fun n => n ≠ "")).filter (fun n => !(n.data.contains '/')))

/-- The try block of ObjectStorage.readdir: validate, compute the listing
prefix, collect the listed objects and run the filename pipeline. -/
def readdirTry (b : Backend) (cfg : PathConverter.Config) (dirPath : String) :
    Except JsError (List String) :=
  match PathConverter.validatePath cfg dirPath with
  | Except.error msg => Except.error (validationError msg)
  | Except.ok _ =>
    let r := PathConverter.getListPrefix cfg dirPath
    match b.listObjectsV2 r.1 r.2 with
    | Except.error e => Except.error e
    | Except.ok objs => Except.ok (readdirNames r.2 objs)

/-- ObjectStorage.prototype.readdir (names form): initialize, run the try
block, convert any failure with the path and the scandir operation
name. -/
def readdir (b : Backend) (cfg : PathConverter.Config) (dirPath : String) :
    Except JsError (List String) :=
  match initClient b with
  | Except.error e => Except.error e
  | Except.ok _ =>
    match readdirTry b cfg dirPath with
    | Except.ok names => Except.ok names
    | Except.error e =>
      Except.error (ErrorHandler.convertError e (some dirPath) (some "scandir"))

/-- The try block of ObjectStorage.rmdir; the ok value records the
bucket/key pairs removed from the backend, so that the theorems can state
that a failing rmdir removes nothing. -/
def rmdirTry (b : Backend) (cfg : PathConverter.Config) (dirPath : String) :
    Except JsError (List (String × String)) :=
  match PathConverter.validatePath cfg dirPath with
  | Except.error msg => Except.error (validationError msg)
  | Except.ok _ =>
    match readdir b cfg dirPath with
    | Except.error e => Except.error e
    | Except.ok contents =>
      if contents.length > 0 then
        Except.error (ErrorHandler.createError "ENOTEMPTY" (some dirPath) "rmdir")
      else
        let r := PathConverter.createDirectoryMarker cfg dirPath
        match b.removeObject r.bucket r.key with
        | Except.ok _ => Except.ok [(r.bucket, r.key)]
        | Except.error e => Except.error e

/-- ObjectStorage.prototype.rmdir: initialize, run the try block; the
catch clause converts failures except not-found and ENOTEMPTY, which are
rethrown as they are.  The second component is the removal trace. -/
def rmdir (b : Backend) (cfg : PathConverter.Config) (dirPath : String) :
    Except JsError Unit × List (String × String) :=
  match initClient b with
  | Except.error e => (Except.error e, [])
  | Except.ok _ =>
    match rmdirTry b cfg dirPath with
    | Except.ok removed => (Except.ok (), removed)
    | Except.error e =>
      if ¬(ErrorHandler.isNotFoundError e = true) ∧ e.code ≠ some "ENOTEMPTY" then
        (Except.error (ErrorHandler.convertError e (some dirPath) (some "rmdir")), [])
      else (Except.error e, [])

end ObjectStorage

/-- Backend whose every call succeeds, listing nothing. -/
def bOk : Backend :=
  { initResult := Except.ok ()
    statObject := fun _ _ => Except.ok ⟨3, 7, "etag1"⟩
    removeObject := fun _ _ => Except.ok ()
    listObjectsV2 := fun _ _ => Except.ok [] }

/-- Converter configuration used by the witnesses. -/
def cfgW : PathConverter.Config := ⟨"bucket", ""⟩

/-- Backend whose statObject fails with a NoSuchKey backend error. -/
def bNotFound : Backend :=
  { initResult := Except.ok ()
    statObject := fun _ _ => Except.error eNoKey
    removeObject := fun _ _ => Except.ok ()
    listObjectsV2 := fun _ _ => Except.ok [] }

/-- Backend whose statObject fails with an AccessDenied backend error. -/
def bDenied : Backend :=
  { initResult := Except.ok ()
    statObject := fun _ _ => Except.error eDenied
    removeObject := fun _ _ => Except.ok ()
    listObjectsV2 := fun _ _ => Except.ok [] }

/-- Backend listing a marker object equal to the prefix, a common-prefix
entry and a nameless entry under the dir prefix. -/
def bList : Backend :=
  { initResult := Except.ok ()
    statObject := fun _ _ => Except.ok ⟨0, 0, ""⟩
    removeObject := fun _ _ => Except.ok ()
    listObjectsV2 := fun _ _ => Except.ok
      [{ name := some "dir/" }, { pfx := some "dir/sub/" }, {}] }

/-- Backend listing one real object under the dir prefix. -/
def bListNE : Backend :=
  { initResult := Except.ok ()
    statObject := fun _ _ => Except.ok ⟨0, 0, ""⟩
    removeObject := fun _ _ => Except.ok ()
    listObjectsV2 := fun _ _ => Except.ok [{ name := some "dir/file.txt" }] }

/-- Backend listing nothing under the dir prefix. -/
def bListE : Backend :=
  { initResult := Except.ok ()
    statObject := fun _ _ => Except.ok ⟨0, 0, ""⟩
    removeObject := fun _ _ => Except.ok ()
    listObjectsV2 := fun _ _ => Except.ok [] }

namespace StreamConverter

/-- How a pass-through sink ends: closed normally or torn down by an
error. -/
inductive SinkEnd where
  | closed
  | errored (msg : String)
deriving DecidableEq, Repr

/-- Modelled from the spec: the repository ships only the bare
PassThrough factory (StreamConverter.createPassThrough) while
createPassThroughStream appears only as a type declaration, so the
buffering pair is modelled from the spec wording: a writable sink that
buffers everything written to it, whose completion signal resolves with
the full concatenated buffer once the sink is closed and rejects with
the failure when the sink errors.  The pair is a record whose promise
component maps the sequence of written chunks and the way the sink ended
to the settled outcome. -/
structure PassThroughPair where
  promiseOf : List (List Nat) → SinkEnd → Except String (List Nat)

/-- Modelled from the spec: StreamConverter.createPassThroughStream. -/
def createPassThroughStream : PassThroughPair :=
  ⟨fun chunks e =>
    match e with
    | SinkEnd.closed => Except.ok chunks.flatten
    | SinkEnd.errored m => Except.error m⟩

end StreamConverter

namespace PathConverter

-- Sanity checks matching the repository unit tests for PathConverter.
example : normalizePath "/bucket//path///to/file.txt" = "/bucket/path/to/file.txt" := by decide
example : normalizePath "/bucket/path/" = "/bucket/path" := by decide
example : normalizePath "/" = "/" := by decide
example : normalizePath "bucket/path/file.txt" = "/bucket/path/file.txt" := by decide
example : normalizePath "" = "/" := by decide
example : normalizePath "/bucket/./path/../file.txt" = "/bucket/file.txt" := by decide
example : splitPath "/bucket/path/to/file.txt" = ⟨"bucket", "path/to/file.txt"⟩ := by decide
example : splitPath "bucket" = ⟨"bucket", ""⟩ := by decide
example : splitPath "/" = ⟨"", ""⟩ := by decide
example : splitPath "/bucket/" = ⟨"bucket", ""⟩ := by decide
example : joinPath "bucket" "/path/to/file.txt" = "/bucket/path/to/file.txt" := by decide
example : joinPath "" "" = "/" := by decide
example : joinPath "bucket" "" = "/bucket" := by decide

/-! Basic facts about splitting and joining on slashes. -/

theorem splitOnSlash_ne_nil (l : List Char) : splitOnSlash l ≠ [] := by
  cases l with
  | nil => simp [splitOnSlash]
  | cons c rest =>
    simp only [splitOnSlash]
    split
    · simp
    · split <;> simp

theorem noslash_of_mem_splitOnSlash (l : List Char) :
    ∀ g ∈ splitOnSlash l, '/' ∉ g := by
  induction l with
  | nil => intro g hg; simp [splitOnSlash] at hg; simp [hg]
  | cons c rest ih =>
    intro g hg
    simp only [splitOnSlash] at hg
    by_cases hc : c = '/'
    · rw [if_pos hc] at hg
      rcases List.mem_cons.mp hg with h | h
      · simp [h]
      · exact ih g h
    · rw [if_neg hc] at hg
      rcases hsp : splitOnSlash rest with _ | ⟨g0, gs⟩
      · exact absurd hsp (splitOnSlash_ne_nil rest)
      · rw [hsp] at hg
        rcases List.mem_cons.mp hg with h | h
        · subst h
          intro hmem
          rcases List.mem_cons.mp hmem with h | h
          · exact hc h.symm
          · exact ih g0 (by simp [hsp]) h
        · exact ih g (by simp [hsp, h])

theorem joinSlash_splitOnSlash (l : List Char) : joinSlash (splitOnSlash l) = l := by
  induction l with
  | nil => rfl
  | cons c rest ih =>
    simp only [splitOnSlash]
    rcases hsp : splitOnSlash rest with _ | ⟨g, gs⟩
    · exact absurd hsp (splitOnSlash_ne_nil rest)
    · rw [hsp] at ih
      by_cases hc : c = '/'
      · subst hc
        simpa [joinSlash] using ih
      · rw [if_neg hc]
        cases gs with
        | nil => simpa [joinSlash] using congrArg (c :: ·) ih
        | cons h t => simpa [joinSlash] using congrArg (c :: ·) ih

theorem splitOnSlash_of_noslash (g : List Char) (h : '/' ∉ g) :
    splitOnSlash g = [g] := by
  induction g with
  | nil => rfl
  | cons c rest ih =>
    have hc : c ≠ '/' := fun hc => h (by simp [hc])
    have hrest : '/' ∉ rest := fun hm => h (by simp [hm])
    simp only [splitOnSlash, if_neg hc, ih hrest]

theorem splitOnSlash_append_slash (g rest : List Char) (h : '/' ∉ g) :
    splitOnSlash (g ++ '/' :: rest) = g :: splitOnSlash rest := by
  induction g with
  | nil => simp [splitOnSlash]
  | cons c g2 ih =>
    have hc : c ≠ '/' := fun hc => h (by simp [hc])
    have hg2 : '/' ∉ g2 := fun hm => h (by simp [hm])
    simp only [List.cons_append, splitOnSlash, if_neg hc, List.append_eq]
    rw [ih hg2]

theorem splitOnSlash_joinSlash (gs : List (List Char)) (hne : gs ≠ [])
    (h : ∀ g ∈ gs, '/' ∉ g) : splitOnSlash (joinSlash gs) = gs := by
  induction gs with
  | nil => exact absurd rfl hne
  | cons g gs2 ih =>
    cases gs2 with
    | nil => exact splitOnSlash_of_noslash g (h g (by simp))
    | cons g2 t =>
      have hg : '/' ∉ g := h g (by simp)
      simp only [joinSlash, splitOnSlash_append_slash g _ hg]
      rw [ih (by simp) (fun x hx => h x (by simp [hx]))]

theorem joinSlash_cons_ne_nil (g : List Char) (gs : List (List Char)) (hg : g ≠ []) :
    joinSlash (g :: gs) ≠ [] := by
  cases gs with
  | nil => simpa [joinSlash] using hg
  | cons h t => simp [joinSlash]

theorem joinSlash_head (c : Char) (g : List Char) (gs : List (List Char)) :
    (joinSlash ((c :: g) :: gs)).head? = some c := by
  cases gs with
  | nil => rfl
  | cons h t => simp [joinSlash]

theorem joinSlash_getLast (gs : List (List Char)) (hne : gs ≠ [])
    (h1 : ∀ g ∈ gs, g ≠ []) (h2 : ∀ g ∈ gs, '/' ∉ g) :
    (joinSlash gs).getLast? ≠ some '/' := by
  induction gs with
  | nil => exact absurd rfl hne
  | cons g gs2 ih =>
    cases gs2 with
    | nil =>
      intro hlast
      have hmem : '/' ∈ g := by
        have := List.getLast?_eq_getLast g (by simpa using h1 g (by simp))
        rw [joinSlash] at hlast
        rw [this] at hlast
        have := Option.some.inj hlast
        rw [← this]
        exact List.getLast_mem _
      exact h2 g (by simp) hmem
    | cons g2 t =>
      have htail := ih (by simp) (fun x hx => h1 x (by simp [hx]))
        (fun x hx => h2 x (by simp [hx]))
      have hjne : joinSlash (g2 :: t) ≠ [] := joinSlash_cons_ne_nil g2 t (h1 g2 (by simp))
      obtain ⟨x, hx⟩ : ∃ x, (joinSlash (g2 :: t)).getLast? = some x := by
        cases hj : (joinSlash (g2 :: t)).getLast? with
        | none =>
          exfalso
          cases hl : joinSlash (g2 :: t) with
          | nil => exact hjne hl
          | cons a as => rw [hl] at hj; simp [List.getLast?_concat] at hj
        | some x => exact ⟨x, rfl⟩
      have hx' : x ≠ '/' := fun hcontra => htail (by rw [hx, hcontra])
      rw [joinSlash, List.getLast?_append,
        show ('/' :: joinSlash (g2 :: t)) = ['/'] ++ joinSlash (g2 :: t) from rfl,
        List.getLast?_append, hx]
      simp [hx']

/-! Invariants of the segment resolver. -/

theorem goNorm_mem (ab : Bool) :
    ∀ gs acc, (∀ s ∈ gs, '/' ∉ s) → (∀ s ∈ acc, SegOk ab s) →
    ∀ s ∈ goNorm ab gs acc, SegOk ab s := by
  intro gs
  induction gs with
  | nil => intro acc _ hacc s hs; exact hacc s hs
  | cons g rest ih =>
    intro acc hgs hacc s hs
    have hg : '/' ∉ g := hgs g (by simp)
    have hrest : ∀ x ∈ rest, '/' ∉ x := fun x hx => hgs x (by simp [hx])
    simp only [goNorm] at hs
    by_cases h1 : g = [] ∨ g = ['.']
    · rw [if_pos h1] at hs
      exact ih acc hrest hacc s hs
    · rw [if_neg h1] at hs
      by_cases h2 : g = ['.', '.']
      · rw [if_pos h2] at hs
        cases acc with
        | nil =>
          refine ih _ hrest ?_ s hs
          intro x hx
          cases hab : ab with
          | true =>
            subst hab; simp at hx; subst hx
            exact ⟨by simp, by simp, by simp, by simp⟩
          | false => subst hab; simp at hx
        | cons t acc2 =>
          replace hs : s ∈ (if t = ['.', '.'] then
              goNorm ab rest (if ab = true then g :: t :: acc2 else t :: acc2)
            else goNorm ab rest acc2) := hs
          by_cases h3 : t = ['.', '.']
          · rw [if_pos h3] at hs
            refine ih _ hrest ?_ s hs
            intro x hx
            cases hab : ab with
            | true =>
              subst hab; simp at hx
              rcases hx with hx | hx
              · subst hx; exact ⟨by simp [h2], by simp [h2], by simp [h2], by simp⟩
              · exact hacc x (by simp [hx])
            | false => subst hab; simp at hx; exact hacc x (by simp [hx])
          · rw [if_neg h3] at hs
            exact ih acc2 hrest (fun x hx => hacc x (by simp [hx])) s hs
      · rw [if_neg h2] at hs
        refine ih _ hrest ?_ s hs
        intro x hx
        rcases List.mem_cons.mp hx with hx | hx
        · subst hx
          push_neg at h1
          exact ⟨h1.1, h1.2, hg, fun _ => h2⟩
        · exact hacc x hx

theorem goNorm_all_plain (ab : Bool) :
    ∀ gs acc, (∀ s ∈ gs, s ≠ [] ∧ s ≠ ['.'] ∧ s ≠ ['.', '.']) →
    goNorm ab gs acc = gs.reverse ++ acc := by
  intro gs
  induction gs with
  | nil => intro acc _; simp [goNorm]
  | cons g rest ih =>
    intro acc hgs
    obtain ⟨hg1, hg2, hg3⟩ := hgs g (by simp)
    simp only [goNorm, if_neg (by simp [hg1, hg2] : ¬(g = [] ∨ g = ['.'])), if_neg hg3]
    rw [ih (g :: acc) (fun x hx => hgs x (by simp [hx]))]
    simp

/-! Collapse of duplicate slashes is the identity on slash-separated
rejoins, captured through a chain predicate forbidding two adjacent
slashes. -/

theorem collapseAux_eq_self (l : List Char) (h : NoDupSlash l) :
    collapseAux false l = l ∧ (l.head? ≠ some '/' → collapseAux true l = l) := by
  induction l with
  | nil => exact ⟨rfl, fun _ => rfl⟩
  | cons c rest ih =>
    have hrest : NoDupSlash rest := (List.chain'_cons'.mp h).2
    obtain ⟨ih1, ih2⟩ := ih hrest
    by_cases hc : c = '/'
    · subst hc
      have hhead : rest.head? ≠ some '/' := by
        intro hh
        have := (List.chain'_cons'.mp h).1 '/' hh
        exact this ⟨rfl, rfl⟩
      constructor
      · simp only [collapseAux]
        rw [ih2 hhead]
        simp
      · intro hne; simp at hne
    · constructor
      · simp only [collapseAux, if_neg hc]
        rw [ih1]
      · intro _
        simp only [collapseAux, if_neg hc]
        rw [ih1]

theorem chain_of_noslash (g : List Char) (h : '/' ∉ g) : NoDupSlash g := by
  induction g with
  | nil => exact List.chain'_nil
  | cons c rest ih =>
    have hc : c ≠ '/' := fun hc => h (by simp [hc])
    refine List.chain'_cons'.mpr ⟨fun y _ => fun hp => hc hp.1, ?_⟩
    exact ih (fun hm => h (by simp [hm]))

theorem noDupSlash_joinSlash (gs : List (List Char))
    (h1 : ∀ g ∈ gs, g ≠ []) (h2 : ∀ g ∈ gs, '/' ∉ g) :
    NoDupSlash (joinSlash gs) := by
  induction gs with
  | nil => exact List.chain'_nil
  | cons g gs2 ih =>
    cases gs2 with
    | nil => exact chain_of_noslash g (h2 g (by simp))
    | cons g2 t =>
      have htail : NoDupSlash (joinSlash (g2 :: t)) :=
        ih (fun x hx => h1 x (by simp [hx])) (fun x hx => h2 x (by simp [hx]))
      have hg : '/' ∉ g := h2 g (by simp)
      rw [joinSlash]
      rw [show ('/' :: joinSlash (g2 :: t)) = ['/'] ++ joinSlash (g2 :: t) from rfl,
        ← List.append_assoc]
      apply List.Chain'.append
      · apply List.Chain'.append (chain_of_noslash g hg) (List.chain'_singleton '/')
        intro x hx y hy
        simp at hy; subst hy
        intro hp
        have : x ∈ g := List.mem_of_mem_getLast? hx
        exact hg (hp.1 ▸ this)
      · exact htail
      · intro x hx y hy
        simp at hx; subst hx
        intro hp
        have hy2 : y ∈ joinSlash (g2 :: t) := List.mem_of_mem_head? hy
        obtain ⟨c, g2', hg2⟩ : ∃ c g2', g2 = c :: g2' := by
          cases hg2 : g2 with
          | nil => exact absurd hg2 (h1 g2 (by simp))
          | cons c g2' => exact ⟨c, g2', rfl⟩
        subst hg2
        rw [joinSlash_head c g2' t] at hy
        simp at hy; subst hy
        exact h2 (c :: g2') (by simp) (by simp [hp.2])

/-! Shapes of posix-normalized output. -/

theorem normalizeString_mem_abs (l : List Char) :
    ∀ s ∈ normalizeString false (splitOnSlash l),
      s ≠ [] ∧ s ≠ ['.'] ∧ s ≠ ['.', '.'] ∧ '/' ∉ s := by
  intro s hs
  rw [normalizeString, List.mem_reverse] at hs
  have h := goNorm_mem false (splitOnSlash l) [] (noslash_of_mem_splitOnSlash l)
    (by simp) s hs
  exact ⟨h.1, h.2.1, h.2.2.2 rfl, h.2.2.1⟩

theorem normalizeString_mem_rel (l : List Char) :
    ∀ s ∈ normalizeString true (splitOnSlash l),
      s ≠ [] ∧ s ≠ ['.'] ∧ '/' ∉ s := by
  intro s hs
  rw [normalizeString, List.mem_reverse] at hs
  have h := goNorm_mem true (splitOnSlash l) [] (noslash_of_mem_splitOnSlash l)
    (by simp) s hs
  exact ⟨h.1, h.2.1, h.2.2.1⟩

theorem posix_shape_abs (l : List Char) (hab : l.head? = some '/') :
    posixNormalizeL l = ['/'] ∨
    ∃ segs, segs ≠ [] ∧ (∀ s ∈ segs, s ≠ [] ∧ s ≠ ['.'] ∧ s ≠ ['.', '.'] ∧ '/' ∉ s) ∧
      (posixNormalizeL l = '/' :: joinSlash segs ∨
       posixNormalizeL l = '/' :: (joinSlash segs ++ ['/'])) := by
  have hne : l ≠ [] := by intro h; rw [h] at hab; simp at hab
  rcases hsegs : normalizeString false (splitOnSlash l) with _ | ⟨s0, srest⟩
  · left
    rw [posixNormalizeL, if_neg hne]
    simp [hab, hsegs, joinSlash]
  · right
    refine ⟨s0 :: srest, by simp, fun s hs => normalizeString_mem_abs l s (by rw [hsegs]; exact hs), ?_⟩
    have hcore : joinSlash (s0 :: srest) ≠ [] :=
      joinSlash_cons_ne_nil s0 srest (normalizeString_mem_abs l s0 (by rw [hsegs]; simp)).1
    by_cases ht : l.getLast? = some '/'
    · right
      rw [posixNormalizeL, if_neg hne]
      simp [hab, hsegs, ht, hcore]
    · left
      rw [posixNormalizeL, if_neg hne]
      simp [hab, hsegs, ht, hcore]

theorem posix_shape_rel (l : List Char) (hne : l ≠ []) (hab : l.head? ≠ some '/') :
    posixNormalizeL l = ['.'] ∨ posixNormalizeL l = ['.', '/'] ∨
    ∃ segs, segs ≠ [] ∧ (∀ s ∈ segs, s ≠ [] ∧ s ≠ ['.'] ∧ '/' ∉ s) ∧
      (posixNormalizeL l = joinSlash segs ∨
       posixNormalizeL l = joinSlash segs ++ ['/']) := by
  rcases hsegs : normalizeString true (splitOnSlash l) with _ | ⟨s0, srest⟩
  · by_cases ht : l.getLast? = some '/'
    · right; left
      rw [posixNormalizeL, if_neg hne]
      simp [hab, hsegs, ht, joinSlash]
    · left
      rw [posixNormalizeL, if_neg hne]
      simp [hab, hsegs, ht, joinSlash]
  · right; right
    refine ⟨s0 :: srest, by simp, fun s hs => normalizeString_mem_rel l s (by rw [hsegs]; exact hs), ?_⟩
    have hcore : joinSlash (s0 :: srest) ≠ [] :=
      joinSlash_cons_ne_nil s0 srest (normalizeString_mem_rel l s0 (by rw [hsegs]; simp)).1
    by_cases ht : l.getLast? = some '/'
    · right
      rw [posixNormalizeL, if_neg hne]
      simp [hab, hsegs, ht, hcore]
    · left
      rw [posixNormalizeL, if_neg hne]
      simp [hab, hsegs, ht, hcore]

/-! Computation of normalizePathL on each posix-normalize output shape. -/

theorem exists_getLast (l : List Char) (h : l ≠ []) : ∃ x, l.getLast? = some x := by
  cases l with
  | nil => exact absurd rfl h
  | cons a as => exact ⟨(a :: as).getLast (by simp), List.getLast?_eq_getLast _ _⟩

theorem slash_cons_getLast (js : List Char) (hjne : js ≠ []) :
    ('/' :: js).getLast? = js.getLast? := by
  obtain ⟨x, hx⟩ := exists_getLast js hjne
  rw [show ('/' :: js) = ['/'] ++ js from rfl, List.getLast?_append, hx]
  simp

theorem joinSlash_ne_nil_of (segs : List (List Char)) (hne : segs ≠ [])
    (h1 : ∀ s ∈ segs, s ≠ []) : joinSlash segs ≠ [] := by
  cases segs with
  | nil => exact absurd rfl hne
  | cons g gs => exact joinSlash_cons_ne_nil g gs (h1 g (by simp))

theorem joinSlash_head_ne_slash (segs : List (List Char)) (hne : segs ≠ [])
    (h1 : ∀ s ∈ segs, s ≠ []) (h2 : ∀ s ∈ segs, '/' ∉ s) :
    ∃ c, (joinSlash segs).head? = some c ∧ c ≠ '/' := by
  cases segs with
  | nil => exact absurd rfl hne
  | cons g gs =>
    cases hg : g with
    | nil => exact absurd hg (h1 g (by simp))
    | cons c g2 =>
      refine ⟨c, ?_, fun hcs => h2 g (by simp) (by simp [hg, hcs])⟩
      exact joinSlash_head c g2 gs

theorem dropWhile_of_head_ne_slash (k : List Char) (c : Char)
    (hk : k.head? = some c) (hc : c ≠ '/') : stripLeadingSlashesL k = k := by
  cases k with
  | nil => simp at hk
  | cons a k2 =>
    have : a = c := by simpa using hk
    subst this
    simp [stripLeadingSlashesL, List.dropWhile_cons, hc]

theorem noDupSlash_slash_join (segs : List (List Char)) (hne : segs ≠ [])
    (h1 : ∀ s ∈ segs, s ≠ []) (h2 : ∀ s ∈ segs, '/' ∉ s) :
    NoDupSlash ('/' :: joinSlash segs) := by
  obtain ⟨c, hch, hcne⟩ := joinSlash_head_ne_slash segs hne h1 h2
  refine List.chain'_cons'.mpr ⟨?_, noDupSlash_joinSlash segs h1 h2⟩
  intro y hy hp
  rw [hch, Option.mem_def] at hy
  have hyc : c = y := by simpa using hy
  exact hcne (by rw [hyc]; exact hp.2)

theorem noDupSlash_append_slash (js : List Char) (hchain : NoDupSlash js)
    (hlast : js.getLast? ≠ some '/') : NoDupSlash (js ++ ['/']) := by
  apply List.Chain'.append hchain (List.chain'_singleton '/')
  intro x hx y _ hp
  rw [Option.mem_def] at hx
  exact hlast (hp.1 ▸ hx)

theorem npl_root (l : List Char) (hne : l ≠ []) (hp : posixNormalizeL l = ['/']) :
    normalizePathL l = ['/'] := by
  rw [normalizePathL, if_neg hne, hp]
  decide

theorem npl_dot (l : List Char) (hne : l ≠ []) (hp : posixNormalizeL l = ['.']) :
    normalizePathL l = ['/', '.'] := by
  rw [normalizePathL, if_neg hne, hp]
  decide

theorem npl_dotslash (l : List Char) (hne : l ≠ [])
    (hp : posixNormalizeL l = ['.', '/']) : normalizePathL l = ['/', '.'] := by
  rw [normalizePathL, if_neg hne, hp]
  decide

theorem npl_abs (l : List Char) (hne : l ≠ []) (segs : List (List Char))
    (hsne : segs ≠ []) (h1 : ∀ s ∈ segs, s ≠ []) (h2 : ∀ s ∈ segs, '/' ∉ s)
    (hp : posixNormalizeL l = '/' :: joinSlash segs) :
    normalizePathL l = '/' :: joinSlash segs := by
  have hjne : joinSlash segs ≠ [] := joinSlash_ne_nil_of segs hsne h1
  have hcol : collapseSlashesL ('/' :: joinSlash segs) = '/' :: joinSlash segs :=
    (collapseAux_eq_self _ (noDupSlash_slash_join segs hsne h1 h2)).1
  rw [normalizePathL, if_neg hne, hp]
  simp only [hcol, List.head?_cons, eq_self_iff_true, if_true]
  exact if_neg (by
    intro hcond
    rw [slash_cons_getLast _ hjne] at hcond
    exact joinSlash_getLast segs hsne h1 h2 hcond.2)

theorem npl_abs_trail (l : List Char) (hne : l ≠ []) (segs : List (List Char))
    (hsne : segs ≠ []) (h1 : ∀ s ∈ segs, s ≠ []) (h2 : ∀ s ∈ segs, '/' ∉ s)
    (hp : posixNormalizeL l = '/' :: (joinSlash segs ++ ['/'])) :
    normalizePathL l = '/' :: joinSlash segs := by
  have hjne : joinSlash segs ≠ [] := joinSlash_ne_nil_of segs hsne h1
  have hshape : '/' :: (joinSlash segs ++ ['/']) = ('/' :: joinSlash segs) ++ ['/'] := by simp
  have hcol : collapseSlashesL ('/' :: (joinSlash segs ++ ['/'])) =
      '/' :: (joinSlash segs ++ ['/']) := by
    have := noDupSlash_append_slash ('/' :: joinSlash segs)
      (noDupSlash_slash_join segs hsne h1 h2)
      (by rw [slash_cons_getLast _ hjne]; exact joinSlash_getLast segs hsne h1 h2)
    rw [← hshape] at this
    exact (collapseAux_eq_self _ this).1
  have hg2 : 1 < ('/' :: (joinSlash segs ++ ['/'])).length ∧
      ('/' :: (joinSlash segs ++ ['/'])).getLast? = some '/' := by
    refine ⟨by simp, ?_⟩
    rw [hshape, List.getLast?_concat]
  rw [normalizePathL, if_neg hne, hp]
  simp only [hcol, List.head?_cons, eq_self_iff_true, if_true]
  rw [if_pos hg2, hshape, List.dropLast_concat]

theorem npl_rel (l : List Char) (hne : l ≠ []) (segs : List (List Char))
    (hsne : segs ≠ []) (h1 : ∀ s ∈ segs, s ≠ []) (h2 : ∀ s ∈ segs, '/' ∉ s)
    (hp : posixNormalizeL l = joinSlash segs) :
    normalizePathL l = '/' :: joinSlash segs := by
  have hjne : joinSlash segs ≠ [] := joinSlash_ne_nil_of segs hsne h1
  obtain ⟨c, hch, hcne⟩ := joinSlash_head_ne_slash segs hsne h1 h2
  have hcol : collapseSlashesL (joinSlash segs) = joinSlash segs :=
    (collapseAux_eq_self _ (noDupSlash_joinSlash segs h1 h2)).1
  have hg1 : ¬ ((some c : Option Char) = some '/') := by simp [hcne]
  have hg2 : ¬ (1 < ('/' :: joinSlash segs).length ∧
      ('/' :: joinSlash segs).getLast? = some '/') := by
    intro hcond
    rw [slash_cons_getLast _ hjne] at hcond
    exact joinSlash_getLast segs hsne h1 h2 hcond.2
  rw [normalizePathL, if_neg hne, hp]
  simp only [hcol, hch]
  rw [if_neg hg1, if_neg hg2]

theorem npl_rel_trail (l : List Char) (hne : l ≠ []) (segs : List (List Char))
    (hsne : segs ≠ []) (h1 : ∀ s ∈ segs, s ≠ []) (h2 : ∀ s ∈ segs, '/' ∉ s)
    (hp : posixNormalizeL l = joinSlash segs ++ ['/']) :
    normalizePathL l = '/' :: joinSlash segs := by
  have hjne : joinSlash segs ≠ [] := joinSlash_ne_nil_of segs hsne h1
  obtain ⟨c, hch, hcne⟩ := joinSlash_head_ne_slash segs hsne h1 h2
  have hcol : collapseSlashesL (joinSlash segs ++ ['/']) = joinSlash segs ++ ['/'] :=
    (collapseAux_eq_self _ (noDupSlash_append_slash _ (noDupSlash_joinSlash segs h1 h2)
      (joinSlash_getLast segs hsne h1 h2))).1
  have hhead : (joinSlash segs ++ ['/']).head? = some c := by
    cases hj : joinSlash segs with
    | nil => exact absurd hj hjne
    | cons a as => rw [hj] at hch; simpa using hch
  have hshape : '/' :: (joinSlash segs ++ ['/']) = ('/' :: joinSlash segs) ++ ['/'] := by simp
  have hg1 : ¬ ((some c : Option Char) = some '/') := by simp [hcne]
  have hg2 : 1 < ('/' :: (joinSlash segs ++ ['/'])).length ∧
      ('/' :: (joinSlash segs ++ ['/'])).getLast? = some '/' := by
    refine ⟨by simp, ?_⟩
    rw [hshape, List.getLast?_concat]
  rw [normalizePathL, if_neg hne, hp]
  simp only [hcol, hhead]
  rw [if_neg hg1, if_pos hg2, hshape, List.dropLast_concat]

/-! Shape of every normalizePathL output, and idempotence on absolute
inputs. -/

theorem normalizePathL_shape (l : List Char) :
    normalizePathL l = ['/'] ∨
    ∃ segs, segs ≠ [] ∧ (∀ s ∈ segs, s ≠ [] ∧ '/' ∉ s) ∧
      normalizePathL l = '/' :: joinSlash segs := by
  by_cases hne : l = []
  · left; rw [hne]; decide
  · by_cases hab : l.head? = some '/'
    · rcases posix_shape_abs l hab with hp | ⟨segs, hsne, hprops, hp | hp⟩
      · left; exact npl_root l hne hp
      · right
        exact ⟨segs, hsne, fun s hs => ⟨(hprops s hs).1, (hprops s hs).2.2.2⟩,
          npl_abs l hne segs hsne (fun s hs => (hprops s hs).1)
            (fun s hs => (hprops s hs).2.2.2) hp⟩
      · right
        exact ⟨segs, hsne, fun s hs => ⟨(hprops s hs).1, (hprops s hs).2.2.2⟩,
          npl_abs_trail l hne segs hsne (fun s hs => (hprops s hs).1)
            (fun s hs => (hprops s hs).2.2.2) hp⟩
    · rcases posix_shape_rel l hne hab with hp | hp | ⟨segs, hsne, hprops, hp | hp⟩
      · right
        refine ⟨[['.']], by simp, by simp, ?_⟩
        rw [npl_dot l hne hp]; rfl
      · right
        refine ⟨[['.']], by simp, by simp, ?_⟩
        rw [npl_dotslash l hne hp]; rfl
      · right
        exact ⟨segs, hsne, fun s hs => ⟨(hprops s hs).1, (hprops s hs).2.2⟩,
          npl_rel l hne segs hsne (fun s hs => (hprops s hs).1)
            (fun s hs => (hprops s hs).2.2) hp⟩
      · right
        exact ⟨segs, hsne, fun s hs => ⟨(hprops s hs).1, (hprops s hs).2.2⟩,
          npl_rel_trail l hne segs hsne (fun s hs => (hprops s hs).1)
            (fun s hs => (hprops s hs).2.2) hp⟩

theorem normalizePathL_shape_abs (l : List Char) (hab : l.head? = some '/') :
    normalizePathL l = ['/'] ∨
    ∃ segs, segs ≠ [] ∧ (∀ s ∈ segs, s ≠ [] ∧ s ≠ ['.'] ∧ s ≠ ['.', '.'] ∧ '/' ∉ s) ∧
      normalizePathL l = '/' :: joinSlash segs := by
  have hne : l ≠ [] := by intro h; rw [h] at hab; simp at hab
  rcases posix_shape_abs l hab with hp | ⟨segs, hsne, hprops, hp | hp⟩
  · left; exact npl_root l hne hp
  · right
    exact ⟨segs, hsne, hprops,
      npl_abs l hne segs hsne (fun s hs => (hprops s hs).1)
        (fun s hs => (hprops s hs).2.2.2) hp⟩
  · right
    exact ⟨segs, hsne, hprops,
      npl_abs_trail l hne segs hsne (fun s hs => (hprops s hs).1)
        (fun s hs => (hprops s hs).2.2.2) hp⟩

theorem normalizePathL_head (l : List Char) : (normalizePathL l).head? = some '/' := by
  rcases normalizePathL_shape l with h | ⟨segs, _, _, h⟩ <;> rw [h] <;> rfl

theorem normalizePathL_fixed (segs : List (List Char)) (hsne : segs ≠ [])
    (hprops : ∀ s ∈ segs, s ≠ [] ∧ s ≠ ['.'] ∧ s ≠ ['.', '.'] ∧ '/' ∉ s) :
    normalizePathL ('/' :: joinSlash segs) = '/' :: joinSlash segs := by
  have h1 : ∀ s ∈ segs, s ≠ [] := fun s hs => (hprops s hs).1
  have h2 : ∀ s ∈ segs, '/' ∉ s := fun s hs => (hprops s hs).2.2.2
  have hjne : joinSlash segs ≠ [] := joinSlash_ne_nil_of segs hsne h1
  have hl : ('/' :: joinSlash segs : List Char) ≠ [] := by simp
  have hpos : posixNormalizeL ('/' :: joinSlash segs) = '/' :: joinSlash segs := by
    have hsplit : splitOnSlash ('/' :: joinSlash segs) = [] :: segs := by
      simp only [splitOnSlash, eq_self_iff_true, if_true]
      rw [splitOnSlash_joinSlash segs hsne h2]
    have hns : normalizeString false ([] :: segs) = segs := by
      rw [normalizeString]
      simp only [goNorm, if_pos (Or.inl rfl : ([] : List Char) = [] ∨ ([] : List Char) = ['.'])]
      rw [goNorm_all_plain false segs []
        (fun s hs => ⟨(hprops s hs).1, (hprops s hs).2.1, (hprops s hs).2.2.1⟩)]
      simp
    have htr : ('/' :: joinSlash segs).getLast? ≠ some '/' := by
      rw [slash_cons_getLast _ hjne]
      exact joinSlash_getLast segs hsne h1 h2
    rw [posixNormalizeL, if_neg hl]
    simp only [List.head?_cons, eq_self_iff_true, if_true, hsplit, hns, if_neg htr,
      if_false]
    rw [if_neg hjne]
  exact npl_abs _ hl segs hsne h1 h2 hpos

theorem normalizePathL_idem_abs (m : List Char) (hab : m.head? = some '/') :
    normalizePathL (normalizePathL m) = normalizePathL m := by
  rcases normalizePathL_shape_abs m hab with h | ⟨segs, hsne, hprops, h⟩
  · rw [h]; decide
  · rw [h]; exact normalizePathL_fixed segs hsne hprops

/-! Reconstruction: joining a split path is the same as normalizing the
normalized path. -/

theorem join_split_eq (l : List Char) :
    joinPathL (splitPathL l).1 (splitPathL l).2 =
      normalizePathL (normalizePathL l) := by
  rcases normalizePathL_shape l with h | ⟨segs, hsne, hprops, h⟩
  · simp only [splitPathL]
    rw [h]
    decide
  · have h1 : ∀ s ∈ segs, s ≠ [] := fun s hs => (hprops s hs).1
    have h2 : ∀ s ∈ segs, '/' ∉ s := fun s hs => (hprops s hs).2
    have hjne : joinSlash segs ≠ [] := joinSlash_ne_nil_of segs hsne h1
    simp only [splitPathL]
    rw [h]
    have hnr : ('/' :: joinSlash segs : List Char) ≠ ['/'] := by
      intro hcontra
      exact hjne (by simpa using hcontra)
    cases segs with
    | nil => exact absurd rfl hsne
    | cons b t =>
      have hsplit : splitOnSlash (joinSlash (b :: t)) = b :: t :=
        splitOnSlash_joinSlash (b :: t) (by simp) h2
      rw [splitCoreL, if_neg hnr]
      simp only [List.drop_one, List.tail_cons, hsplit]
      cases t with
      | nil =>
        show joinPathL b (joinSlash []) = _
        have hb : b ≠ [] := h1 b (by simp)
        rw [joinPathL]
        simp only [joinSlash]
        rw [if_neg (by simp : ¬(b ≠ [] ∧ ([] : List Char) ≠ [])), if_pos hb]
      | cons g2 t2 =>
        show joinPathL b (joinSlash (g2 :: t2)) = _
        have hb : b ≠ [] := h1 b (by simp)
        have hkne : joinSlash (g2 :: t2) ≠ [] :=
          joinSlash_cons_ne_nil g2 t2 (h1 g2 (by simp))
        obtain ⟨c, hch, hcne⟩ := joinSlash_head_ne_slash (g2 :: t2) (by simp)
          (fun s hs => h1 s (by simp [List.mem_cons] at hs ⊢; tauto))
          (fun s hs => h2 s (by simp [List.mem_cons] at hs ⊢; tauto))
        rw [joinPathL]
        rw [if_pos ⟨hb, hkne⟩, dropWhile_of_head_ne_slash _ c hch hcne]
        rfl

/-! Claim theorems for the path converter round trip. -/

theorem splitPathL_roundtrip (d : List Char) :
    splitPathL (joinPathL (splitPathL d).1 (splitPathL d).2) =
      splitPathL (normalizePathL d) := by
  rw [join_split_eq d]
  simp only [splitPathL]
  rw [normalizePathL_idem_abs (normalizePathL d) (normalizePathL_head d)]

theorem data_mk (l : List Char) : (String.mk l).data = l := rfl

end PathConverter

namespace ErrorHandler

set_option maxHeartbeats 1000000 in
theorem errorMapping_ne (c : String) (i : String × Int × String)
    (h : errorMapping c = some i) : i.1 ≠ "" ∧ i.2.1 ≠ 0 := by
  unfold errorMapping at h
  split_ifs at h <;> (injection h with hh; subst hh; exact ⟨by decide, by decide⟩)

theorem convertInfo_ne (e : JsError) :
    (convertInfo e).1 ≠ "" ∧ (convertInfo e).2.1 ≠ 0 := by
  cases h : tableInfo e with
  | some i =>
    have hconv : convertInfo e = i := by unfold convertInfo; rw [h]
    rw [hconv]
    have hex : ∃ c, errorMapping c = some i := by
      rw [tableInfo] at h
      cases hc : e.code with
      | none => rw [hc] at h; exact Option.noConfusion h
      | some c =>
        rw [hc] at h
        replace h : (if c ≠ "" then errorMapping c else none) = some i := h
        by_cases hcne : c ≠ ""
        · rw [if_pos hcne] at h; exact ⟨c, h⟩
        · rw [if_neg hcne] at h; exact Option.noConfusion h
    obtain ⟨c, hcm⟩ := hex
    exact errorMapping_ne c i hcm
  | none =>
    have hconv : convertInfo e =
        if e.message ≠ "" then msgInfo e.message else unknownInfo := by
      unfold convertInfo; rw [h]
    rw [hconv]
    by_cases hm : e.message ≠ ""
    · rw [if_pos hm, msgInfo]
      split_ifs <;> exact ⟨by decide, by decide⟩
    · rw [if_neg hm]; exact ⟨by decide, by decide⟩

theorem convertError_passthrough (e : JsError) (p s : Option String)
    (h1 : strTruthy e.code = true) (h2 : intTruthy e.errno = true) :
    convertError e p s = e := by
  rw [convertError.eq_def, if_pos (by rw [h1, h2]; rfl)]

theorem convertError_fields (e : JsError) (p s : Option String)
    (h : ¬((strTruthy e.code && intTruthy e.errno) = true)) :
    (convertError e p s).code = some (convertInfo e).1 ∧
    (convertError e p s).errno = some (convertInfo e).2.1 ∧
    (convertError e p s).path = p ∧
    (convertError e p s).originalError = some ⟨e.code, e.errno, e.message⟩ := by
  rw [convertError.eq_def, if_neg h]
  exact ⟨rfl, rfl, rfl, rfl⟩

theorem convertInfo_of_code (e : JsError) (c : String) (hc : e.code = some c)
    (hcne : c ≠ "") (i : String × Int × String) (hm : errorMapping c = some i) :
    convertInfo e = i := by
  have ht : tableInfo e = some i := by
    rw [tableInfo, hc]
    replace hm : (if c ≠ "" then errorMapping c else none) = some i := by
      rw [if_pos hcne]; exact hm
    exact hm
  unfold convertInfo
  rw [ht]

theorem msgInfo_unknown (m : String)
    (h : ∀ pat ∈ msgPatterns, includesStr m pat = false) :
    msgInfo m = unknownInfo := by
  have h1 := h "key does not exist" (by simp [msgPatterns])
  have h2 := h "NoSuchKey" (by simp [msgPatterns])
  have h3 := h "Not Found" (by simp [msgPatterns])
  have h4 := h "bucket does not exist" (by simp [msgPatterns])
  have h5 := h "NoSuchBucket" (by simp [msgPatterns])
  have h6 := h "access denied" (by simp [msgPatterns])
  have h7 := h "AccessDenied" (by simp [msgPatterns])
  have h8 := h "ENOTFOUND" (by simp [msgPatterns])
  have h9 := h "ECONNREFUSED" (by simp [msgPatterns])
  have h10 := h "timeout" (by simp [msgPatterns])
  have h11 := h "ETIMEDOUT" (by simp [msgPatterns])
  simp [msgInfo, h1, h2, h3, h4, h5, h6, h7, h8, h9, h10, h11]

theorem convertInfo_unknown (e : JsError) (ht : tableInfo e = none)
    (hpat : ∀ pat ∈ msgPatterns, includesStr e.message pat = false) :
    convertInfo e = unknownInfo := by
  unfold convertInfo
  rw [ht]
  by_cases hm : e.message ≠ ""
  · rw [if_pos hm]; exact msgInfo_unknown _ hpat
  · rw [if_neg hm]

end ErrorHandler

/-- C1: a backend error (one not already carrying a truthy errno) with a
not-found code converts to code ENOENT with errno -2 and the supplied
path; an access-denied backend error converts to EACCES with errno -13;
and a backend error matching no table entry and no message pattern
converts to EIO with errno -5 while retaining the original error,
message included, as the originalError trace. -/
theorem claim1_convertError_table (e : JsError) (ps : String) (s : Option String) :
    (¬ErrorHandler.intTruthy e.errno = true →
      (e.code = some "NoSuchKey" ∨ e.code = some "NoSuchBucket" ∨
        e.code = some "BucketNotFound") →
      ((ErrorHandler.convertError e (some ps) s).code = some "ENOENT" ∧
       (ErrorHandler.convertError e (some ps) s).errno = some (-2) ∧
       (ErrorHandler.convertError e (some ps) s).path = some ps)) ∧
    (¬ErrorHandler.intTruthy e.errno = true → e.code = some "AccessDenied" →
      ((ErrorHandler.convertError e (some ps) s).code = some "EACCES" ∧
       (ErrorHandler.convertError e (some ps) s).errno = some (-13))) ∧
    (¬ErrorHandler.intTruthy e.errno = true → ErrorHandler.tableInfo e = none →
      (∀ pat ∈ ErrorHandler.msgPatterns, ErrorHandler.includesStr e.message pat = false) →
      ((ErrorHandler.convertError e (some ps) s).code = some "EIO" ∧
       (ErrorHandler.convertError e (some ps) s).errno = some (-5) ∧
       (ErrorHandler.convertError e (some ps) s).originalError =
         some ⟨e.code, e.errno, e.message⟩)) := by
  refine ⟨?_, ?_, ?_⟩
  · intro herrno hcode
    have hcond : ¬((ErrorHandler.strTruthy e.code && ErrorHandler.intTruthy e.errno) = true) := by
      intro hb; rw [Bool.and_eq_true] at hb; exact herrno hb.2
    obtain ⟨h1, h2, h3, _⟩ := ErrorHandler.convertError_fields e (some ps) s hcond
    have hinfo : ErrorHandler.convertInfo e = ("ENOENT", -2, "no such file or directory") := by
      rcases hcode with hc | hc | hc <;>
        exact ErrorHandler.convertInfo_of_code e _ hc (by decide) _ (by decide)
    refine ⟨?_, ?_, ?_⟩
    · rw [h1, hinfo]
    · rw [h2, hinfo]
    · rw [h3]
  · intro herrno hcode
    have hcond : ¬((ErrorHandler.strTruthy e.code && ErrorHandler.intTruthy e.errno) = true) := by
      intro hb; rw [Bool.and_eq_true] at hb; exact herrno hb.2
    obtain ⟨h1, h2, _, _⟩ := ErrorHandler.convertError_fields e (some ps) s hcond
    have hinfo : ErrorHandler.convertInfo e = ("EACCES", -13, "permission denied") :=
      ErrorHandler.convertInfo_of_code e _ hcode (by decide) _ (by decide)
    refine ⟨?_, ?_⟩
    · rw [h1, hinfo]
    · rw [h2, hinfo]
  · intro herrno htable hpat
    have hcond : ¬((ErrorHandler.strTruthy e.code && ErrorHandler.intTruthy e.errno) = true) := by
      intro hb; rw [Bool.and_eq_true] at hb; exact herrno hb.2
    obtain ⟨h1, h2, _, h4⟩ := ErrorHandler.convertError_fields e (some ps) s hcond
    have hinfo := ErrorHandler.convertInfo_unknown e htable hpat
    refine ⟨?_, ?_, ?_⟩
    · rw [h1, hinfo]; rfl
    · rw [h2, hinfo]; rfl
    · rw [h4]

/-- Witness for C1: the three conversion families evaluated at concrete
backend errors. -/
theorem claim1_witness :
    ((ErrorHandler.convertError eNoKey (some "/test/file.txt") none).code = some "ENOENT" ∧
     (ErrorHandler.convertError eNoKey (some "/test/file.txt") none).errno = some (-2) ∧
     (ErrorHandler.convertError eNoKey (some "/test/file.txt") none).path =
       some "/test/file.txt") ∧
    ((ErrorHandler.convertError eDenied (some "/test/file.txt") none).code = some "EACCES" ∧
     (ErrorHandler.convertError eDenied (some "/test/file.txt") none).errno = some (-13)) ∧
    ((ErrorHandler.convertError eMystery (some "/test/file.txt") none).code = some "EIO" ∧
     (ErrorHandler.convertError eMystery (some "/test/file.txt") none).errno = some (-5) ∧
     (ErrorHandler.convertError eMystery (some "/test/file.txt") none).originalError =
       some ⟨eMystery.code, eMystery.errno, eMystery.message⟩) :=
  ⟨(claim1_convertError_table eNoKey "/test/file.txt" none).1 (by decide) (by decide),
   (claim1_convertError_table eDenied "/test/file.txt" none).2.1 (by decide) (by decide),
   (claim1_convertError_table eMystery "/test/file.txt" none).2.2 (by decide) (by decide)
     (by decide)⟩

/-- C7: an error already carrying a truthy code and errno passes through
convertError unchanged, and convertError is idempotent on every input. -/
theorem claim7_convertError_idempotent (e : JsError) (p s : Option String) :
    (ErrorHandler.strTruthy e.code = true → ErrorHandler.intTruthy e.errno = true →
      ErrorHandler.convertError e p s = e) ∧
    ErrorHandler.convertError (ErrorHandler.convertError e p s) p s =
      ErrorHandler.convertError e p s := by
  constructor
  · intro h1 h2
    exact ErrorHandler.convertError_passthrough e p s h1 h2
  · by_cases hcond : (ErrorHandler.strTruthy e.code && ErrorHandler.intTruthy e.errno) = true
    · have hpair : ErrorHandler.strTruthy e.code = true ∧
          ErrorHandler.intTruthy e.errno = true := by
        rw [Bool.and_eq_true] at hcond; exact hcond
      have he := ErrorHandler.convertError_passthrough e p s hpair.1 hpair.2
      rw [he]
      exact he
    · have hout1 : ErrorHandler.strTruthy (ErrorHandler.convertError e p s).code = true := by
        obtain ⟨h1, _, _, _⟩ := ErrorHandler.convertError_fields e p s hcond
        rw [h1]
        simp [ErrorHandler.strTruthy, (ErrorHandler.convertInfo_ne e).1]
      have hout2 : ErrorHandler.intTruthy (ErrorHandler.convertError e p s).errno = true := by
        obtain ⟨_, h2, _, _⟩ := ErrorHandler.convertError_fields e p s hcond
        rw [h2]
        simp [ErrorHandler.intTruthy, (ErrorHandler.convertInfo_ne e).2]
      exact ErrorHandler.convertError_passthrough _ p s hout1 hout2

namespace PathConverter

theorem noDupSlash_posix (l : List Char) : NoDupSlash (posixNormalizeL l) := by
  by_cases hne : l = []
  · rw [hne]
    show List.Chain' _ ['.']
    exact List.chain'_singleton _
  · by_cases hab : l.head? = some '/'
    · rcases posix_shape_abs l hab with hp | ⟨segs, hsne, hprops, hp | hp⟩
      · rw [hp]; exact List.chain'_singleton _
      · rw [hp]
        exact noDupSlash_slash_join segs hsne (fun s hs => (hprops s hs).1)
          (fun s hs => (hprops s hs).2.2.2)
      · rw [hp]
        have h1 : ∀ s ∈ segs, s ≠ [] := fun s hs => (hprops s hs).1
        have h2 : ∀ s ∈ segs, '/' ∉ s := fun s hs => (hprops s hs).2.2.2
        have hjne : joinSlash segs ≠ [] := joinSlash_ne_nil_of segs hsne h1
        rw [show '/' :: (joinSlash segs ++ ['/']) = ('/' :: joinSlash segs) ++ ['/'] from
          by simp]
        refine noDupSlash_append_slash _ (noDupSlash_slash_join segs hsne h1 h2) ?_
        rw [slash_cons_getLast _ hjne]
        exact joinSlash_getLast segs hsne h1 h2
    · rcases posix_shape_rel l hne hab with hp | hp | ⟨segs, hsne, hprops, hp | hp⟩
      · rw [hp]; exact List.chain'_singleton _
      · rw [hp]
        exact List.chain'_cons'.mpr ⟨fun y hy => by simp at hy; simp [hy],
          List.chain'_singleton _⟩
      · rw [hp]
        exact noDupSlash_joinSlash segs (fun s hs => (hprops s hs).1)
          (fun s hs => (hprops s hs).2.2)
      · rw [hp]
        exact noDupSlash_append_slash _
          (noDupSlash_joinSlash segs (fun s hs => (hprops s hs).1)
            (fun s hs => (hprops s hs).2.2))
          (joinSlash_getLast segs hsne (fun s hs => (hprops s hs).1)
            (fun s hs => (hprops s hs).2.2))

theorem noDupSlash_strippedPath (p : String) : NoDupSlash (strippedPathL p) :=
  (noDupSlash_posix p.data).suffix (List.dropWhile_suffix _)

theorem noDupSlash_stripped_drop (p : String) (n : Nat) :
    NoDupSlash ((strippedPathL p).drop n) :=
  (noDupSlash_strippedPath p).drop n

theorem collapseSlashesL_eq_self (l : List Char) (h : NoDupSlash l) :
    collapseSlashesL l = l :=
  (collapseAux_eq_self l h).1

end PathConverter

/-- C3: when the normalized, slash-stripped form of a path begins with
the configured bucket name and a separator (or equals the bucket name),
pathToMinIOPair drops that leading bucket segment before building the key;
with no configured prefix the returned key is exactly the remainder, so
the redundant bucket copy is gone. -/
theorem claim3_pathToMinIO_strips_bucket (cfg : PathConverter.Config) (p : String) :
    (((cfg.bucket.data ++ ['/']).isPrefixOf (PathConverter.strippedPathL p)) = true →
      ((PathConverter.pathToMinIOPair cfg p).key =
        ⟨PathConverter.pathToMinIOKeyL cfg
          ((PathConverter.strippedPathL p).drop (cfg.bucket.data.length + 1))⟩ ∧
       (cfg.keyPfx = "" →
        (PathConverter.pathToMinIOPair cfg p).key =
          ⟨(PathConverter.strippedPathL p).drop (cfg.bucket.data.length + 1)⟩))) ∧
    (PathConverter.strippedPathL p = cfg.bucket.data →
      ((PathConverter.pathToMinIOPair cfg p).key = ⟨PathConverter.pathToMinIOKeyL cfg []⟩ ∧
       (cfg.keyPfx = "" → (PathConverter.pathToMinIOPair cfg p).key = ""))) := by
  constructor
  · intro hpre
    have h1 : PathConverter.bucketStrippedL cfg p =
        (PathConverter.strippedPathL p).drop (cfg.bucket.data.length + 1) := by
      rw [PathConverter.bucketStrippedL]
      simp only [hpre, if_true]
    constructor
    · rw [PathConverter.pathToMinIOPair, h1]
    · intro hpfx
      rw [PathConverter.pathToMinIOPair, h1]
      show (⟨PathConverter.pathToMinIOKeyL cfg _⟩ : String) = _
      rw [PathConverter.pathToMinIOKeyL, hpfx]
      rw [if_neg (by simp)]
      rw [PathConverter.collapseSlashesL_eq_self _ (PathConverter.noDupSlash_stripped_drop p _)]
  · intro heq
    have hpre2 : ¬(((cfg.bucket.data ++ ['/']).isPrefixOf (PathConverter.strippedPathL p)) = true) := by
      intro hpre
      obtain ⟨t, ht⟩ := List.isPrefixOf_iff_prefix.mp hpre
      rw [heq] at ht
      have hlen := congrArg List.length ht
      simp only [List.length_append, List.length_cons, List.length_nil] at hlen
      omega
    have h1 : PathConverter.bucketStrippedL cfg p = [] := by
      simp only [PathConverter.bucketStrippedL]
      rw [if_neg hpre2, if_pos heq]
    constructor
    · rw [PathConverter.pathToMinIOPair, h1]
    · intro hpfx
      rw [PathConverter.pathToMinIOPair, h1]
      show (⟨PathConverter.pathToMinIOKeyL cfg []⟩ : String) = ""
      rw [PathConverter.pathToMinIOKeyL, hpfx]
      rw [if_neg (by simp)]
      rfl

/-- Witness for C3: a fully-qualified path given to a converter bound to
the same bucket, with and without a configured prefix. -/
theorem claim3_witness :
    ((PathConverter.pathToMinIOPair ⟨"data", ""⟩ "/data/a/b.txt").key = "a/b.txt" ∧
     (PathConverter.pathToMinIOPair ⟨"data", ""⟩ "/data").key = "") := by
  constructor
  · have h := (claim3_pathToMinIO_strips_bucket ⟨"data", ""⟩ "/data/a/b.txt").1
      (by decide)
    rw [h.2 rfl]
    decide
  · have h := (claim3_pathToMinIO_strips_bucket ⟨"data", ""⟩ "/data").2 (by decide)
    exact h.2 rfl

/-- C6: validatePath fails exactly when the path is empty, contains an
invalid or control character, or converts to a key longer than 1024
UTF-8 bytes; on every other path it succeeds. -/
theorem claim6_validatePath_iff (cfg : PathConverter.Config) (q : String) :
    (∃ msg, PathConverter.validatePath cfg q = Except.error msg) ↔
      (q = "" ∨ q.data.any PathConverter.isInvalidChar = true ∨
        1024 < (PathConverter.pathToMinIOPair cfg q).key.utf8ByteSize) := by
  unfold PathConverter.validatePath
  split_ifs with hA hB hC
  · simp [hA]
  · simp [hB]
  · simp [hC]
  · simp [hA, hB, hC]

-- Sanity checks for validatePath at concrete paths.
example : (PathConverter.validatePath ⟨"b", ""⟩ "/ok/file.txt").isOk = true := by decide
example : (PathConverter.validatePath ⟨"b", ""⟩ "/bad|name").isOk = false := by decide
example : (PathConverter.validatePath ⟨"b", ""⟩ "").isOk = false := by decide

namespace ObjectStorage

theorem statTry_ok (b : Backend) (cfg : PathConverter.Config) (p : String)
    (st : Stats) (h : statTry b cfg p = Except.ok st) : ∃ oi, st = mkStats oi := by
  unfold statTry at h
  split at h
  · exact Except.noConfusion h
  · dsimp only at h
    split at h
    · exact ⟨_, (Except.ok.inj h).symm⟩
    · exact Except.noConfusion h

theorem stat_ok_exists (b : Backend) (cfg : PathConverter.Config) (p : String)
    (st : Stats) (h : stat b cfg p = Except.ok st) : ∃ oi, st = mkStats oi := by
  unfold stat at h
  split at h
  · exact Except.noConfusion h
  · split at h
    · rename_i st2 heq
      obtain ⟨oi, hoi⟩ := statTry_ok b cfg p st2 heq
      exact ⟨oi, by rw [← Except.ok.inj h]; exact hoi⟩
    · exact Except.noConfusion h

end ObjectStorage

/-- C9: every successful stat reports a regular file: isFile is true and
every other type predicate is false, whatever the path (a directory
marker object included), since the backend statObject metadata never
influences the type fields. -/
theorem claim9_stat_regular_file (b : Backend) (cfg : PathConverter.Config)
    (p : String) (st : Stats) (h : ObjectStorage.stat b cfg p = Except.ok st) :
    st.isFile = true ∧ st.isDirectory = false ∧ st.isBlockDevice = false ∧
    st.isCharacterDevice = false ∧ st.isSymbolicLink = false ∧
    st.isFIFO = false ∧ st.isSocket = false := by
  obtain ⟨oi, hoi⟩ := ObjectStorage.stat_ok_exists b cfg p st h
  rw [hoi]
  exact ⟨rfl, rfl, rfl, rfl, rfl, rfl, rfl⟩

/-- Witness for C9: a successful stat on a directory-marker path reports
a regular file. -/
theorem claim9_witness :
    (ObjectStorage.mkStats ⟨3, 7, "etag1"⟩).isFile = true ∧
    (ObjectStorage.mkStats ⟨3, 7, "etag1"⟩).isDirectory = false ∧
    (ObjectStorage.mkStats ⟨3, 7, "etag1"⟩).isBlockDevice = false ∧
    (ObjectStorage.mkStats ⟨3, 7, "etag1"⟩).isCharacterDevice = false ∧
    (ObjectStorage.mkStats ⟨3, 7, "etag1"⟩).isSymbolicLink = false ∧
    (ObjectStorage.mkStats ⟨3, 7, "etag1"⟩).isFIFO = false ∧
    (ObjectStorage.mkStats ⟨3, 7, "etag1"⟩).isSocket = false :=
  claim9_stat_regular_file bOk cfgW "/dir/marker/" (ObjectStorage.mkStats ⟨3, 7, "etag1"⟩) rfl

/-- C4: when stat fails with a not-found (ENOENT) error the exists
operation resolves to false instead of propagating it; when stat fails
with an access-denied (EACCES) error the exists operation propagates that
same error. -/
theorem claim4_exists_error_handling (b : Backend) (cfg : PathConverter.Config)
    (p : String) (e : JsError) (h : ObjectStorage.stat b cfg p = Except.error e) :
    (e.code = some "ENOENT" → ObjectStorage.«exists» b cfg p = Except.ok false) ∧
    (e.code = some "EACCES" → ObjectStorage.«exists» b cfg p = Except.error e) := by
  constructor
  · intro hc
    unfold ObjectStorage.«exists»
    rw [h]
    simp [ErrorHandler.isNotFoundError, hc]
  · intro hc
    unfold ObjectStorage.«exists»
    rw [h]
    simp [ErrorHandler.isNotFoundError, hc]

/-- C10: every successful readdir result is sorted in ascending
lexicographic order, and every entry is a nonempty name containing no
slash. -/
theorem claim10_readdir_sorted_direct_children (b : Backend)
    (cfg : PathConverter.Config) (p : String) (ns : List String)
    (h : ObjectStorage.readdir b cfg p = Except.ok ns) :
    List.Pairwise (fun a b : String => a ≤ b) ns ∧
    ∀ n ∈ ns, n ≠ "" ∧ n.data.contains '/' = false := by
  have hex : ∃ pre objs, ns = ObjectStorage.readdirNames pre objs := by
    unfold ObjectStorage.readdir at h
    split at h
    · exact Except.noConfusion h
    · split at h
      · rename_i names heq
        unfold ObjectStorage.readdirTry at heq
        split at heq
        · exact Except.noConfusion heq
        · dsimp only at heq
          split at heq
          · exact Except.noConfusion heq
          · rename_i objs heq2
            refine ⟨(PathConverter.getListPrefix cfg p).2, objs, ?_⟩
            rw [← Except.ok.inj h, ← Except.ok.inj heq]
      · exact Except.noConfusion h
  obtain ⟨pre, objs, rfl⟩ := hex
  constructor
  · exact List.sorted_mergeSort' _
  · intro n hn
    have hn2 : n ∈ ((objs.filterMap (ObjectStorage.processListed pre)).filter
        (fun n => n ≠ "")).filter (fun n => !(n.data.contains '/')) :=
      (List.mergeSort_perm _ _).mem_iff.mp hn
    constructor
    · have hp := List.of_mem_filter (List.mem_of_mem_filter hn2)
      simpa using hp
    · have hp := List.of_mem_filter hn2
      simpa using hp

-- Witness for C10: the listing above readdirs to a sorted list of
-- slash-free nonempty names (the marker shrinks to the empty name and is
-- dropped, the nameless entry is dropped, the common prefix remains).
unseal List.merge List.mergeSort in
theorem claim10_witness :
    List.Pairwise (fun a b : String => a ≤ b) ["sub"] ∧
    ∀ n ∈ ["sub"], n ≠ "" ∧ n.data.contains '/' = false :=
  claim10_readdir_sorted_direct_children bList cfgW "/dir" ["sub"] rfl

/-- C8: the pass-through pair resolves its promise with the concatenation
of everything written once the sink is closed, and rejects it with the
failure when the sink errors. -/
theorem claim8_passthrough_promise (chunks : List (List Nat)) :
    StreamConverter.createPassThroughStream.promiseOf chunks StreamConverter.SinkEnd.closed =
      Except.ok chunks.flatten ∧
    ∀ m, StreamConverter.createPassThroughStream.promiseOf chunks
        (StreamConverter.SinkEnd.errored m) = Except.error m :=
  ⟨rfl, fun _ => rfl⟩

/-- C5: under a successful initialization, validation and listing, a
directory whose readdir listing is nonempty makes rmdir fail with an
ENOTEMPTY error and remove nothing; a directory whose listing is empty
and whose marker removal succeeds makes rmdir succeed having removed
exactly the directory marker. -/
theorem claim5_rmdir_enotempty_or_marker (b : Backend) (cfg : PathConverter.Config)
    (p : String) (objs : List ListedObj)
    (hinit : b.initResult = Except.ok ())
    (hval : PathConverter.validatePath cfg p = Except.ok ())
    (hlist : b.listObjectsV2 (PathConverter.getListPrefix cfg p).1
      (PathConverter.getListPrefix cfg p).2 = Except.ok objs) :
    (ObjectStorage.readdirNames (PathConverter.getListPrefix cfg p).2 objs ≠ [] →
      ObjectStorage.rmdir b cfg p =
        (Except.error (ErrorHandler.createError "ENOTEMPTY" (some p) "rmdir"), [])) ∧
    (ObjectStorage.readdirNames (PathConverter.getListPrefix cfg p).2 objs = [] →
      b.removeObject (PathConverter.createDirectoryMarker cfg p).bucket
          (PathConverter.createDirectoryMarker cfg p).key = Except.ok () →
      ObjectStorage.rmdir b cfg p =
        (Except.ok (), [((PathConverter.createDirectoryMarker cfg p).bucket,
          (PathConverter.createDirectoryMarker cfg p).key)])) := by
  have hinit2 : ObjectStorage.initClient b = Except.ok () := by
    unfold ObjectStorage.initClient
    rw [hinit]
  have hreaddir : ObjectStorage.readdir b cfg p =
      Except.ok (ObjectStorage.readdirNames (PathConverter.getListPrefix cfg p).2 objs) := by
    simp only [ObjectStorage.readdir, ObjectStorage.readdirTry, hinit2, hval, hlist]
  constructor
  · intro hne
    have hlen : 0 < (ObjectStorage.readdirNames
        (PathConverter.getListPrefix cfg p).2 objs).length := List.length_pos.mpr hne
    have hcatch : ¬(¬(ErrorHandler.isNotFoundError
          (ErrorHandler.createError "ENOTEMPTY" (some p) "rmdir") = true) ∧
        (ErrorHandler.createError "ENOTEMPTY" (some p) "rmdir").code ≠
          some "ENOTEMPTY") := by
      intro hcontra
      exact hcontra.2 rfl
    simp only [ObjectStorage.rmdir, ObjectStorage.rmdirTry, hinit2, hval, hreaddir]
    rw [if_pos hlen]
    dsimp only
    rw [if_neg hcatch]
  · intro hnil hrm
    have hlen : ¬(0 < (ObjectStorage.readdirNames
        (PathConverter.getListPrefix cfg p).2 objs).length) := by
      rw [hnil]
      simp
    simp only [ObjectStorage.rmdir, ObjectStorage.rmdirTry, hinit2, hval, hreaddir]
    rw [if_neg hlen]
    simp only [hrm]

-- Witness for C5: the nonempty directory fails with ENOTEMPTY and no
-- removal; the empty directory succeeds removing exactly the marker.
unseal List.merge List.mergeSort in
theorem claim5_witness :
    ObjectStorage.rmdir bListNE cfgW "/dir" =
      (Except.error (ErrorHandler.createError "ENOTEMPTY" (some "/dir") "rmdir"), []) ∧
    ObjectStorage.rmdir bListE cfgW "/dir" = (Except.ok (), [("bucket", "dir/")]) := by
  constructor
  · exact (claim5_rmdir_enotempty_or_marker bListNE cfgW "/dir" _ rfl rfl rfl).1
      (by decide)
  · exact (claim5_rmdir_enotempty_or_marker bListE cfgW "/dir" _ rfl rfl rfl).2
      (by decide) rfl

/-- Witness for C4: exists degrades a not-found stat failure to false and
propagates an access-denied stat failure. -/
theorem claim4_witness :
    ObjectStorage.«exists» bNotFound cfgW "/f.txt" = Except.ok false ∧
    ObjectStorage.«exists» bDenied cfgW "/f.txt" =
      Except.error (ErrorHandler.convertError eDenied (some "/f.txt") (some "stat")) :=
  ⟨(claim4_exists_error_handling bNotFound cfgW "/f.txt"
      (ErrorHandler.convertError eNoKey (some "/f.txt") (some "stat")) rfl).1 rfl,
   (claim4_exists_error_handling bDenied cfgW "/f.txt"
      (ErrorHandler.convertError eDenied (some "/f.txt") (some "stat")) rfl).2 rfl⟩

/-- Witness for C7: pass-through and idempotence at concrete errors. -/
theorem claim7_witness :
    ErrorHandler.convertError eAlready (some "/a") none = eAlready ∧
    ErrorHandler.convertError (ErrorHandler.convertError eNoKey (some "/a") none)
        (some "/a") none =
      ErrorHandler.convertError eNoKey (some "/a") none :=
  ⟨(claim7_convertError_idempotent eAlready (some "/a") none).1 (by decide) (by decide),
   (claim7_convertError_idempotent eNoKey (some "/a") none).2⟩

/-- C2: for every path p, splitting the path rejoined from the bucket and
key of the split of p gives the same result as splitting the normalized
form of p. -/
theorem claim2_splitPath_roundtrip (p : String) :
    PathConverter.splitPath
        (PathConverter.joinPath (PathConverter.splitPath p).bucket
          (PathConverter.splitPath p).key) =
      PathConverter.splitPath (PathConverter.normalizePath p) := by
  simp only [PathConverter.splitPath, PathConverter.joinPath,
    PathConverter.normalizePath, PathConverter.data_mk]
  rw [PathConverter.splitPathL_roundtrip p.data]
